import Mathlib

/-!
Verification of the foot-view gait/fall analysis core.

This file gives a shallow embedding, in Lean 4, of the numeric core of the
repository (src/backend/fall_detection.py, src/backend/gait_analysis.py,
src/app.py) and proves or refutes the specified properties of that core.

Modelling conventions:
* Python floats are modelled as rationals; `round(x, k)` is round-half-even
  at k decimals (`rheInt` below).
* `numpy` reductions (`mean`, `std`, `percentile`) are modelled exactly on
  rationals; `np.std` is the square root of the population variance, and the
  square root is either kept as an explicit function parameter constrained by
  its order properties, or instantiated with `ratSqrt`, which is exact on
  rationals whose numerator and denominator are perfect squares.
* `NaN`/missing values (pandas) are modelled with `Option`.
* Fallible library calls are modelled by explicit outcome values.
-/

/-- Number of `true` entries in a list of booleans (Python `sum(list_of_bool)`). -/
def countB (l : List Bool) : ℕ := (l.filter id).length

/-- `np.mean` on rationals: sum divided by length (0 on the empty list). -/
def qMean (l : List ℚ) : ℚ := l.sum / (l.length : ℚ)

/-- Population variance (`np.var`, `ddof=0`): mean of squared deviations. -/
def qVariance (l : List ℚ) : ℚ :=
  ((l.map (fun x => (x - qMean l) * (x - qMean l))).sum) / (l.length : ℚ)

/-- Round-half-even to an integer (Python 3 `round`). -/
def rheInt (x : ℚ) : ℤ :=
  if x - (⌊x⌋ : ℚ) < 1/2 then ⌊x⌋
  else if 1/2 < x - (⌊x⌋ : ℚ) then ⌊x⌋ + 1
  else if ⌊x⌋ % 2 = 0 then ⌊x⌋ else ⌊x⌋ + 1

/-- Python `round(x, k)` where `m = 10^k`. -/
def roundQ (m : ℚ) (x : ℚ) : ℚ := ((rheInt (x * m) : ℚ)) / m

/-- `round(x, 1)`. -/
def round1 (x : ℚ) : ℚ := roundQ 10 x

/-- `round(x, 2)`. -/
def round2 (x : ℚ) : ℚ := roundQ 100 x

/-- `round(x, 3)`. -/
def round3 (x : ℚ) : ℚ := roundQ 1000 x

/-- `round(x, 4)`. -/
def round4 (x : ℚ) : ℚ := roundQ 10000 x

/-- A computable stand-in for the floating-point square root: exact on
rationals whose reduced numerator and denominator are perfect squares
(which covers every concrete input used below), nonnegative and
positivity-preserving everywhere, and `0` on nonpositive input, as
`math.sqrt`/`np.sqrt` are at `0`. -/
def isqrtGo : ℕ → ℕ → ℕ → ℕ → ℕ
  | 0, _, lo, _ => lo
  | fuel + 1, n, lo, hi =>
      if hi ≤ lo + 1 then lo
      else if ((lo + hi) / 2) * ((lo + hi) / 2) ≤ n then
        isqrtGo fuel n ((lo + hi) / 2) hi
      else isqrtGo fuel n lo ((lo + hi) / 2)

/-- Integer square root by kernel-reducible binary search (used only through
the perfect-square test below, so only its computability matters). -/
def isqrt (n : ℕ) : ℕ := isqrtGo (n + 2) n 0 (n + 1)

def ratSqrt (q : ℚ) : ℚ :=
  if q ≤ 0 then 0
  else if isqrt q.num.toNat * isqrt q.num.toNat = q.num.toNat ∧
      isqrt q.den * isqrt q.den = q.den then
    (isqrt q.num.toNat : ℚ) / (isqrt q.den : ℚ)
  else q

/-- Python `int(q)` for nonnegative `q` (truncation), as a natural number. -/
def truncNat (q : ℚ) : ℕ := (⌊q⌋).toNat

/-- Insert into a sorted list using the boolean comparator. -/
def insertBy {α : Type} (le : α → α → Bool) (x : α) : List α → List α
  | [] => [x]
  | y :: t => if le x y then x :: y :: t else y :: insertBy le x t

/-- Insertion sort with a boolean comparator (Python `sorted`, ascending). -/
def sortBy {α : Type} (le : α → α → Bool) : List α → List α
  | [] => []
  | x :: t => insertBy le x (sortBy le t)

/-- Forward fill (pandas `Series.ffill`): carry the last seen value forward. -/
def ffillAux (c : Option ℚ) : List (Option ℚ) → List (Option ℚ)
  | [] => []
  | none :: t => c :: ffillAux c t
  | some v :: t => some v :: ffillAux (some v) t

/-- pandas `.ffill()`. -/
def ffill (l : List (Option ℚ)) : List (Option ℚ) := ffillAux none l

/-- pandas `.bfill()`: carry the next valid value backward. -/
def bfill (l : List (Option ℚ)) : List (Option ℚ) := (ffill l.reverse).reverse

/-- `series.ffill().bfill()` as used throughout `gait_analysis.py`. -/
def fillCol (l : List (Option ℚ)) : List (Option ℚ) := bfill (ffill l)

/-- pandas `Series.max()` (skips missing values; `none` if no value). -/
def optMax (l : List (Option ℚ)) : Option ℚ :=
  l.foldl (fun acc o =>
    match acc, o with
    | none, o => o
    | some m, none => some m
    | some m, some v => some (max m v)) none

/-- pandas `Series.min()` (skips missing values; `none` if no value). -/
def optMin (l : List (Option ℚ)) : Option ℚ :=
  l.foldl (fun acc o =>
    match acc, o with
    | none, o => o
    | some m, none => some m
    | some m, some v => some (min m v)) none

/-- `series.iloc[i]` on a column of possibly-missing values. -/
def getO (l : List (Option ℚ)) (i : ℕ) : Option ℚ := (l.getD i none)

/-- Maximum of a nonempty rational list (`max(l)` / `np.max`). -/
def listMax : List ℚ → Option ℚ
  | [] => none
  | x :: t => some (t.foldl max x)

/-- Minimum of a nonempty rational list (`min(l)` / `np.min`). -/
def listMin : List ℚ → Option ℚ
  | [] => none
  | x :: t => some (t.foldl min x)

/-- `np.percentile(l, p)` with the default linear interpolation:
position `p/100 * (n-1)` in the ascending sort of `l`. -/
def npPercentile (p : ℚ) (l : List ℚ) : ℚ :=
  let s := sortBy (fun a b => decide (a ≤ b)) l
  let n := s.length
  let pos := p / 100 * ((n : ℚ) - 1)
  let i := (⌊pos⌋).toNat
  let frac := pos - ((⌊pos⌋ : ℤ) : ℚ)
  s.getD i 0 + frac * (s.getD (i + 1) 0 - s.getD i 0)

/-- `np.diff` on a list of frame indices. -/
def natDiffs : List ℕ → List ℕ
  | [] => []
  | [_] => []
  | a :: b :: t => (b - a) :: natDiffs (b :: t)

/-! ## Detection association (src/backend/fall_detection.py) -/

/-- A bounding box `[x1, y1, x2, y2]`. -/
structure Box where
  x1 : ℚ
  y1 : ℚ
  x2 : ℚ
  y2 : ℚ
deriving DecidableEq, Repr

/-- `calculate_iou(box1, box2)`. -/
def calculateIou (b1 b2 : Box) : ℚ :=
  let x1 := max b1.x1 b2.x1
  let y1 := max b1.y1 b2.y1
  let x2 := min b1.x2 b2.x2
  let y2 := min b1.y2 b2.y2
  let intersection := max 0 (x2 - x1) * max 0 (y2 - y1)
  let area1 := (b1.x2 - b1.x1) * (b1.y2 - b1.y1)
  let area2 := (b2.x2 - b2.x1) * (b2.y2 - b2.y1)
  let union := area1 + area2 - intersection
  if union ≤ 0 then 0 else intersection / union

/-- A fall/normal detector box (an entry of the `_detect_falls` output). -/
structure FallDet where
  bbox : Box
  isFall : Bool
  conf : ℚ
deriving DecidableEq, Repr

/-- A person box (an entry of the `_detect_persons` output). -/
structure PersonDet where
  bbox : Box
  conf : ℚ
deriving DecidableEq, Repr

/-- An entry of the `_match_detections` output. -/
structure MatchedPerson where
  bbox : Box
  isFall : Bool
  conf : ℚ
  fallConf : ℚ
  className : String
  bestIou : ℚ
deriving DecidableEq, Repr

/-- The inner loop of `_match_detections` for one person: the running state is
`(is_fall, fall_conf, best_iou)`, initially `(False, 0.0, 0.0)`. -/
def matchGo (thr : ℚ) (pbox : Box) : Bool × ℚ × ℚ → List FallDet → Bool × ℚ × ℚ
  | s, [] => s
  | s, d :: ds =>
      let i := calculateIou pbox d.bbox
      if thr < i ∧ s.2.2 < i then
        matchGo thr pbox (if d.isFall then (true, d.conf, i) else (s.1, s.2.1, i)) ds
      else
        matchGo thr pbox s ds

/-- One person's `(is_fall, fall_conf, best_iou)` after scanning all
fall/normal detections, as computed by `_match_detections`. -/
def matchOne (thr : ℚ) (pbox : Box) (dets : List FallDet) : Bool × ℚ × ℚ :=
  matchGo thr pbox (false, 0, 0) dets

/-- `_match_detections(persons, fall_detections)`. -/
def matchDetections (thr : ℚ) (persons : List PersonDet) (dets : List FallDet) :
    List MatchedPerson :=
  persons.map (fun p =>
    let r := matchOne thr p.bbox dets
    { bbox := p.bbox, isFall := r.1, conf := p.conf, fallConf := r.2.1,
      className := if r.1 then "fall" else "normal", bestIou := r.2.2 })

/-! ## Fall event state machine (`detect_video` / `detect_frames_buffer`) -/

/-- One emitted fall event. -/
structure FallEvent where
  startTime : ℚ
  endTime : ℚ
  startFrame : ℕ
  endFrame : ℕ
  duration : ℚ
  confidence : ℚ
deriving DecidableEq, Repr

/-- Temporal-analysis parameters, as fixed at the top of `detect_video`
(and, with rescaled values, of `detect_frames_buffer`). -/
structure FDParams where
  windowSize : ℕ
  minDurFrames : ℕ
  cooldownFrames : ℕ
  fps : ℚ
deriving Repr

/-- Working state of the fall-event state machine. -/
structure FDState where
  window : List Bool
  inFallEvent : Bool
  startFrame : Option ℕ
  confSum : ℚ
  confCount : ℕ
  framesSince : ℕ
  events : List FallEvent
deriving Repr

/-- Sliding-window update: append the new flag, pop the head if the window
exceeds its capacity. -/
def pushWin (ws : ℕ) (w : List Bool) (f : Bool) : List Bool :=
  let w1 := w ++ [f]
  if ws < w1.length then w1.tail else w1

/-- The smoothed (majority-voted) flag computed from the current window:
false until `min(window_size, 3)` samples are buffered, then
`count(True)/len >= 0.5`. -/
def smoothedOf (ws : ℕ) (w : List Bool) : Bool :=
  decide (min ws 3 ≤ w.length) && decide ((1 : ℚ)/2 ≤ (countB w : ℚ) / (w.length : ℚ))

/-- The event record appended by the state machine on emission. -/
def mkFallEvent (P : FDParams) (st en : ℕ) (sum : ℚ) (cnt : ℕ) : FallEvent :=
  { startTime := (st : ℚ) / P.fps
    endTime := (en : ℚ) / P.fps
    startFrame := st
    endFrame := en
    duration := ((en - st : ℕ) : ℚ) / P.fps
    confidence := sum / ((max 1 cnt : ℕ) : ℚ) }

/-- One loop iteration of the fall-event state machine: window maintenance,
vote smoothing, cooldown counting, and the `idle`/`in_event` transitions of
`detect_video` (identically structured in `detect_frames_buffer`). The input
frame is `(original frame index, fall_detected, confidence)`. -/
def fdStep (P : FDParams) (s : FDState) (fr : ℕ × Bool × ℚ) : FDState :=
  let idx := fr.1
  let w := pushWin P.windowSize s.window fr.2.1
  let smoothed := smoothedOf P.windowSize w
  let since := s.framesSince + 1
  if smoothed then
    if s.inFallEvent = false ∧ P.cooldownFrames ≤ since then
      { s with window := w, framesSince := since, inFallEvent := true,
               startFrame := some idx, confSum := fr.2.2, confCount := 1 }
    else if s.inFallEvent then
      { s with window := w, framesSince := since,
               confSum := s.confSum + fr.2.2, confCount := s.confCount + 1 }
    else
      { s with window := w, framesSince := since }
  else
    if s.inFallEvent then
      match s.startFrame with
      | some st =>
          if P.minDurFrames ≤ idx - st then
            { window := w, inFallEvent := false, startFrame := none,
              confSum := 0, confCount := 0, framesSince := 0,
              events := s.events ++ [mkFallEvent P st idx s.confSum s.confCount] }
          else
            { window := w, inFallEvent := false, startFrame := none,
              confSum := 0, confCount := 0, framesSince := since,
              events := s.events }
      | none =>
          { window := w, inFallEvent := false, startFrame := none,
            confSum := 0, confCount := 0, framesSince := since,
            events := s.events }
    else
      { s with window := w, framesSince := since }

/-- Initial state: the frames-since-last-event counter starts at the full
cooldown count (`frames_since_last_event = cooldown_frames`). -/
def fdInit (P : FDParams) : FDState :=
  { window := [], inFallEvent := false, startFrame := none,
    confSum := 0, confCount := 0, framesSince := P.cooldownFrames, events := [] }

/-- Run the state machine over a list of per-frame detection results. -/
def fdRun (P : FDParams) (frames : List (ℕ × Bool × ℚ)) : FDState :=
  frames.foldl (fdStep P) (fdInit P)

/-- End-of-stream handling: a still-open event is emitted iff it meets the
minimum duration against the final frame index. -/
def fdFinish (P : FDParams) (s : FDState) (lastIdx : ℕ) : List FallEvent :=
  if s.inFallEvent then
    match s.startFrame with
    | some st =>
        if P.minDurFrames ≤ lastIdx - st then
          s.events ++ [mkFallEvent P st lastIdx s.confSum s.confCount]
        else s.events
    | none => s.events
  else s.events

/-- The parameter block of `detect_video`: window 1.5 s (at least 5 frames),
minimum event duration 1.0 s (at least 3 frames), cooldown 2.0 s. -/
def videoParams (fps : ℚ) : FDParams :=
  { windowSize := max 5 (truncNat (fps * (3/2)))
    minDurFrames := max 3 (truncNat (fps * 1))
    cooldownFrames := truncNat (fps * 2)
    fps := fps }

/-- `detect_video`, restricted to its fall-event output: the per-frame
results `(fall_detected, confidence)` of `detect_frame` are the input, frame
indices are consecutive from 0, and the final frame index is the stream
length. -/
def detectVideoFallEvents (fps : ℚ) (frames : List (Bool × ℚ)) : List FallEvent :=
  let P := videoParams fps
  fdFinish P (fdRun P (frames.enum.map (fun p => (p.1, p.2.1, p.2.2)))) frames.length

/-- The parameter block of `detect_frames_buffer` for a skip stride: window
and cooldown counts are divided by the stride, and the minimum duration is
compared against `min_fall_frames * skip_frames` original frames. -/
def bufferParams (fps : ℚ) (skip : ℕ) : FDParams :=
  { windowSize := max 5 (truncNat (fps * (3/2) / (skip : ℚ)))
    minDurFrames := (max 2 (truncNat (fps * 1 / (skip : ℚ)))) * skip
    cooldownFrames := truncNat (fps * 2 / (skip : ℚ))
    fps := fps }

/-- `detect_frames_buffer`, restricted to its fall-event output: the buffer
carries `(original frame index, fall_detected, confidence)` per frame, only
every `skip`-th buffered frame is processed, and a trailing open event is
closed against the last buffered frame's index. -/
def detectBufferFallEvents (fps : ℚ) (skip : ℕ) (buffer : List (ℕ × Bool × ℚ)) :
    List FallEvent :=
  if buffer = [] then []
  else
    let P := bufferParams fps skip
    let processed := (buffer.enum.filter (fun p => decide (p.1 % skip = 0))).map (fun p => p.2)
    fdFinish P (fdRun P processed) (buffer.getLastD (0, false, 0)).1

/-- The window contents after feeding a flag stream through `pushWin`. -/
def windowAfter (ws : ℕ) (flags : List Bool) : List Bool :=
  flags.foldl (pushWin ws) []

/-- The smoothed flag the machine computes at step `i` of a flag stream. -/
def smoothedAt (ws : ℕ) (flags : List Bool) (i : ℕ) : Bool :=
  smoothedOf ws (windowAfter ws (flags.take (i + 1)))

/-! ## Gait analysis (src/backend/gait_analysis.py) -/

/-- The per-frame keypoint columns consumed by `calculate_step_lengths`,
`calculate_swing_amplitude` and `calculate_knee_angles`; a missing/NaN
coordinate is `none`. -/
structure FrameRow where
  leftAnkleX : Option ℚ := none
  leftAnkleY : Option ℚ := none
  rightAnkleX : Option ℚ := none
  rightAnkleY : Option ℚ := none
  leftHipX : Option ℚ := none
  leftHipY : Option ℚ := none
  leftKneeX : Option ℚ := none
  leftKneeY : Option ℚ := none
  rightHipX : Option ℚ := none
  rightHipY : Option ℚ := none
  rightKneeX : Option ℚ := none
  rightKneeY : Option ℚ := none
deriving DecidableEq, Repr

/-- The dictionary produced by `calculate_torso_stability` (`none` models a
NaN statistic on too-short input). -/
structure TorsoRec where
  meanAngle : Option ℚ
  angleStd : Option ℚ
  stability : Option ℚ
deriving DecidableEq, Repr

/-- The dictionary produced by `detect_gait_cycles`: per-side cycle duration
series (seconds), per-side mean durations, the per-side peak ("valley")
frame indices, and the cadence. -/
structure GaitCycleInfo where
  gaitCyclesRight : List ℚ
  gaitCyclesLeft : List ℚ
  meanGaitCycleRight : Option ℚ
  meanGaitCycleLeft : Option ℚ
  firstGaitCycleFrame : Option ℕ
  valleysLeft : List ℕ
  valleysRight : List ℕ
  cadence : Option ℚ
deriving DecidableEq, Repr

/-- The tail of `detect_gait_cycles`: the result dictionary built from the
detected per-side peak indices, the input length and the fps. Cycle
durations are `np.diff(peaks)/fps`; cadence is
`(len(valleys_left)+len(valleys_right))/total_time*60` when the trajectory
duration is positive. -/
def mkGaitCycleInfo (valleysL valleysR : List ℕ) (nframes : ℕ) (fps : ℚ) :
    GaitCycleInfo :=
  let cyclesR := (natDiffs valleysR).map (fun d : ℕ => (d : ℚ) / fps)
  let cyclesL := (natDiffs valleysL).map (fun d : ℕ => (d : ℚ) / fps)
  let totalTime := (nframes : ℚ) / fps
  { gaitCyclesRight := cyclesR
    gaitCyclesLeft := cyclesL
    meanGaitCycleRight := if cyclesR.length > 0 then some (qMean cyclesR) else none
    meanGaitCycleLeft := if cyclesL.length > 0 then some (qMean cyclesL) else none
    firstGaitCycleFrame :=
      if 1 < valleysR.length then valleysR.getD 1 0
      else if 1 < valleysL.length then valleysL.getD 1 0
      else none
    valleysLeft := valleysL
    valleysRight := valleysR
    cadence :=
      if 0 < totalTime then
        some (((valleysL.length + valleysR.length : ℕ) : ℚ) / totalTime * 60)
      else none }

/-- The Savitzky-Golay window length computed at the top of
`detect_gait_cycles`: 11, shrunk for short series to
`max(3, len if len odd else len - 1)`. -/
def savgolWindow (n : ℕ) : ℤ :=
  if n < 11 then max 3 (if n % 2 = 1 then (n : ℤ) else (n : ℤ) - 1) else 11

/-- Control-flow outcome of the smoothing prologue of `detect_gait_cycles`:
either the explicit "no cycles" dictionary is returned (`noCycles`), or
`scipy.signal.savgol_filter` is reached. With the default `interp` mode,
`savgol_filter` raises `ValueError` whenever `window_length` exceeds the
number of samples (`savgolValueError`); otherwise the detector proceeds. -/
inductive GaitDetectOutcome where
  | noCycles
  | savgolValueError
  | proceeds
deriving DecidableEq, Repr

/-- The outcome of the `detect_gait_cycles` prologue on a series of `n`
samples: return "no cycles" if the computed window length is below 3,
otherwise call `savgol_filter`, which faults iff the window exceeds `n`. -/
def detectGaitCyclesOutcome (n : ℕ) : GaitDetectOutcome :=
  let wl := savgolWindow n
  if wl < 3 then .noCycles
  else if (n : ℤ) < wl then .savgolValueError
  else .proceeds

/-- `calculate_angle(p1, p2, p3)` with `p2` the vertex, parameterised by the
square root (for the vector norms) and by arc-cosine-in-degrees; the cosine
is clamped to `[-1, 1]` before `acosDeg`. -/
def calcAngle (sq acosDeg : ℚ → ℚ) (p1x p1y p2x p2y p3x p3y : ℚ) : ℚ :=
  let v1x := p1x - p2x
  let v1y := p1y - p2y
  let v2x := p3x - p2x
  let v2y := p3y - p2y
  let cosA := (v1x * v2x + v1y * v2y) /
    (sq (v1x * v1x + v1y * v1y) * sq (v2x * v2x + v2y * v2y) + 1/100000000)
  acosDeg (max (-1) (min 1 cosA))

/-- One row's knee angle at the given hip/knee/ankle columns: defined only
when all six coordinates are present (a NaN coordinate propagates to a NaN
angle, which `calculate_knee_angles` skips). -/
def rowKneeAngle (sq acosDeg : ℚ → ℚ)
    (hx hy kx ky ax ay : Option ℚ) : Option ℚ :=
  match hx, hy, kx, ky, ax, ay with
  | some a, some b, some c, some d, some e, some f =>
      some (calcAngle sq acosDeg a b c d e f)
  | _, _, _, _, _, _ => none

/-- The dictionary produced by `calculate_knee_angles`. -/
structure KneeRec where
  leftKneeMean : Option ℚ
  rightKneeMean : Option ℚ
  leftKneeRange : Option ℚ
  rightKneeRange : Option ℚ
deriving DecidableEq, Repr

/-- `np.ptp` over a nonempty angle list, `none` when no angle was defined. -/
def anglesPtp (l : List ℚ) : Option ℚ :=
  match listMax l, listMin l with
  | some a, some b => some (a - b)
  | _, _ => none

/-- `calculate_knee_angles(keypoints_df)`. -/
def calcKneeAngles (sq acosDeg : ℚ → ℚ) (df : List FrameRow) : KneeRec :=
  let leftAngles := df.filterMap (fun r =>
    rowKneeAngle sq acosDeg r.leftHipX r.leftHipY r.leftKneeX r.leftKneeY
      r.leftAnkleX r.leftAnkleY)
  let rightAngles := df.filterMap (fun r =>
    rowKneeAngle sq acosDeg r.rightHipX r.rightHipY r.rightKneeX r.rightKneeY
      r.rightAnkleX r.rightAnkleY)
  { leftKneeMean := if leftAngles ≠ [] then some (qMean leftAngles) else none
    rightKneeMean := if rightAngles ≠ [] then some (qMean rightAngles) else none
    leftKneeRange := if leftAngles ≠ [] then anglesPtp leftAngles else none
    rightKneeRange := if rightAngles ≠ [] then anglesPtp rightAngles else none }

/-- The loop body of `calculate_step_lengths` over the sorted list of all
foot-contact frames: for each adjacent pair, skip out-of-range indices, read
the matching ankle x column (left if the frame is a left-side contact), and
keep absolute displacements above the 0.001 noise floor. -/
def stepLengthsGo (lx rx : List (Option ℚ)) (n : ℕ) (vl : List ℕ) :
    List ℕ → List ℚ
  | [] => []
  | [_] => []
  | p :: c :: t =>
      let rest := stepLengthsGo lx rx n vl (c :: t)
      if n ≤ c ∨ n ≤ p then rest
      else
        let cx := if c ∈ vl then getO lx c else getO rx c
        let px := if p ∈ vl then getO lx p else getO rx p
        match cx, px with
        | some a, some b =>
            if 1/1000 < |a - b| then |a - b| :: rest else rest
        | _, _ => rest

/-- `calculate_step_lengths(keypoints_df, gait_cycle_info)`. -/
def calcStepLengths (df : List FrameRow) (gci : GaitCycleInfo) : List ℚ :=
  let lx := fillCol (df.map (fun r => r.leftAnkleX))
  let rx := fillCol (df.map (fun r => r.rightAnkleX))
  let allValleys := sortBy (fun a b => decide (a ≤ b))
    (gci.valleysLeft ++ gci.valleysRight)
  stepLengthsGo lx rx df.length gci.valleysLeft allValleys

/-- The dictionary produced by `calculate_swing_amplitude` (`none` models
NaN when an ankle column has no valid sample). -/
structure SwingRec where
  rightSwing : Option ℚ
  leftSwing : Option ℚ
  meanSwing : Option ℚ
deriving DecidableEq, Repr

/-- `calculate_swing_amplitude(keypoints_df, gait_cycle_info)`. -/
def calcSwingAmplitude (df : List FrameRow) : SwingRec :=
  let ry := fillCol (df.map (fun r => r.rightAnkleY))
  let ly := fillCol (df.map (fun r => r.leftAnkleY))
  let rs := match optMax ry, optMin ry with
    | some a, some b => some (a - b)
    | _, _ => none
  let ls := match optMax ly, optMin ly with
    | some a, some b => some (a - b)
    | _, _ => none
  { rightSwing := rs
    leftSwing := ls
    meanSwing := match rs, ls with
      | some a, some b => some ((a + b) / 2)
      | _, _ => none }

/-- The measurement dictionary produced by `calculate_gait_metrics`
(`none` is the Python `None` "undefined" marker). Field order follows the
source: cadence, gait cycle, symmetry index, variability coefficient, torso
stability, torso tilt angle, mean step length, swing amplitude, knee range
of motion. -/
structure Measurements where
  cadence : Option ℚ
  gaitCycle : Option ℚ
  symmetryIndex : Option ℚ
  variabilityCoef : Option ℚ
  torsoStability : Option ℚ
  torsoTiltAngle : Option ℚ
  avgStepLength : Option ℚ
  swingAmplitude : Option ℚ
  kneeRom : Option ℚ
deriving DecidableEq, Repr

/-- The local variable `cv` of `calculate_gait_metrics`:
`std/mean*100` when the mean pooled duration is positive, else 0. -/
def cvRaw (sq : ℚ → ℚ) (pooled : List ℚ) : ℚ :=
  if 0 < qMean pooled then sq (qVariance pooled) / qMean pooled * 100 else 0

/-- `calculate_gait_metrics(keypoints_df, torso_info, gait_cycle_info, fps)`,
parameterised by the square root and arc-cosine used in the knee-angle
computation. Returns the measurements and `has_valid_gait`. -/
def calcGaitMetrics (sq acosDeg : ℚ → ℚ) (df : List FrameRow)
    (torso : Option TorsoRec) (gci : GaitCycleInfo) : Measurements × Bool :=
  let hasValidGait : Bool :=
    decide (2 ≤ gci.valleysLeft.length) || decide (2 ≤ gci.valleysRight.length)
  let cadence :=
    match gci.cadence with
    | some c => if hasValidGait then some (round1 c) else none
    | none => none
  let gaitCycle :=
    match gci.meanGaitCycleRight, gci.meanGaitCycleLeft with
    | some r, some l =>
        if hasValidGait then some (round3 ((r + l) / 2)) else none
    | _, _ => none
  let symmetry :=
    match gci.meanGaitCycleRight, gci.meanGaitCycleLeft with
    | some r, some l =>
        if hasValidGait then
          let avgCycle := (r + l) / 2
          some (round1 (if 0 < avgCycle then |r - l| / avgCycle * 100 else 0))
        else none
    | _, _ => none
  let combined :=
    if 0 < gci.gaitCyclesRight.length ∨ 0 < gci.gaitCyclesLeft.length then
      gci.gaitCyclesRight ++ gci.gaitCyclesLeft
    else []
  let variability :=
    if 1 < combined.length ∧ hasValidGait = true then
      some (round1 (cvRaw sq combined))
    else none
  let (torsoStab, torsoTilt) :=
    match torso with
    | some t =>
        match t.stability with
        | some s =>
            (some (round3 s),
             match t.meanAngle with
             | some a => if a = 0 then none else some (round1 a)
             | none => none)
        | none => (none, none)
    | none => (none, none)
  let stepLengths := calcStepLengths df gci
  let avgStep :=
    if stepLengths ≠ [] then some (round4 (qMean stepLengths)) else none
  let swing :=
    match (calcSwingAmplitude df).meanSwing with
    | some s => if 0 < s then some (round4 s) else none
    | none => none
  let knee := calcKneeAngles sq acosDeg df
  let kneeRom :=
    match knee.leftKneeRange, knee.rightKneeRange with
    | some l, some r => some (round1 ((l + r) / 2))
    | _, _ => none
  ({ cadence := cadence
     gaitCycle := gaitCycle
     symmetryIndex := symmetry
     variabilityCoef := variability
     torsoStability := torsoStab
     torsoTiltAngle := torsoTilt
     avgStepLength := avgStep
     swingAmplitude := swing
     kneeRom := kneeRom }, hasValidGait)

/-! ## Personal range engine (src/app.py) -/

/-- The hard-bound stage of `filter_outliers`: keep values inside the
physically-plausible limits (all values when no limits are given). -/
def hardFilter (values : List ℚ) (hardLimits : Option (ℚ × ℚ)) : List ℚ :=
  match hardLimits with
  | some (lo, hi) => values.filter (fun v => decide (lo ≤ v ∧ v ≤ hi))
  | none => values

/-- The quartile stage of `filter_outliers`: keep values inside
`[Q1 - 1.5*IQR, Q3 + 1.5*IQR]` with `np.percentile` quartiles. -/
def iqrFilter (f1 : List ℚ) : List ℚ :=
  f1.filter (fun v => decide
    (npPercentile 25 f1 - 3/2 * (npPercentile 75 f1 - npPercentile 25 f1) ≤ v ∧
     v ≤ npPercentile 75 f1 + 3/2 * (npPercentile 75 f1 - npPercentile 25 f1)))

/-- `filter_outliers(values, hard_limits, use_iqr)`: hard-bound filtering,
then (if at least 4 values remain and `use_iqr`) the 1.5-IQR quartile
filter; returns the kept values and the number dropped by both stages
together. -/
def filterOutliers (values : List ℚ) (hardLimits : Option (ℚ × ℚ))
    (useIqr : Bool) : List ℚ × ℕ :=
  if values = [] then ([], 0)
  else
    let f1 := hardFilter values hardLimits
    if useIqr = true ∧ 4 ≤ f1.length then
      (iqrFilter f1,
       (values.length - f1.length) + (f1.length - (iqrFilter f1).length))
    else (f1, values.length - f1.length)

/-- `calculate_dynamic_range(values, base_range, metric_type, hard_limits)`,
parameterised by the square root used inside `np.std`. Returns the range
pair and the outlier count. -/
def calcDynamicRange (sq : ℚ → ℚ) (values : List ℚ) (baseRange : ℚ × ℚ)
    (metricType : String) (hardLimits : Option (ℚ × ℚ)) : (ℚ × ℚ) × ℕ :=
  let fr := filterOutliers values hardLimits true
  let validValues := if fr.1 = [] then values else fr.1
  if validValues.length < 5 then (baseRange, fr.2)
  else
    let mean := qMean validValues
    let std0 := sq (qVariance validValues)
    let minStd := if mean ≠ 0 then |mean| * (1/10) else 1
    let std := max std0 minStd
    let personalMin0 := mean - 3/2 * std
    let personalMax := mean + 3/2 * std
    let personalMin :=
      if metricType = "lower_better" then max 0 personalMin0 else personalMin0
    let finalMin0 := 7/10 * personalMin + 3/10 * baseRange.1
    let finalMax := 7/10 * personalMax + 3/10 * baseRange.2
    let finalMin :=
      if metricType = "lower_better" then max 0 finalMin0 else finalMin0
    ((round2 finalMin, round2 finalMax), fr.2)

/-- Default detection used for safe list indexing in statements. -/
def dDet : FallDet := ⟨⟨0, 0, 0, 0⟩, false, 0⟩

/-! ## Helper lemmas -/

/- Batteries marks the rational-number operations `@[irreducible]`, which
blocks `decide`-based evaluation of the embedded functions at concrete
inputs; restore default reducibility for this file. -/
attribute [local semireducible] Rat.add Rat.mul Rat.sub Rat.inv

theorem rheInt_floor_le (x : ℚ) : ⌊x⌋ ≤ rheInt x := by
  unfold rheInt
  split_ifs <;> omega

theorem rheInt_le_floor_add_one (x : ℚ) : rheInt x ≤ ⌊x⌋ + 1 := by
  unfold rheInt
  split_ifs <;> omega

theorem rheInt_mono {x y : ℚ} (h : x ≤ y) : rheInt x ≤ rheInt y := by
  by_cases hf : ⌊x⌋ < ⌊y⌋
  · exact le_trans (rheInt_le_floor_add_one x)
      (le_trans (by omega) (rheInt_floor_le y))
  · have hfe : ⌊x⌋ = ⌊y⌋ := le_antisymm (Int.floor_le_floor h) (by omega)
    have hfr : x - (⌊x⌋ : ℚ) ≤ y - (⌊y⌋ : ℚ) := by
      rw [← hfe]; linarith
    unfold rheInt
    rw [hfe] at hfr ⊢
    split_ifs <;> first | omega | linarith

theorem rheInt_zero : rheInt 0 = 0 := by
  unfold rheInt
  norm_num

theorem roundQ_mono (m : ℚ) (hm : 0 < m) {x y : ℚ} (h : x ≤ y) :
    roundQ m x ≤ roundQ m y := by
  unfold roundQ
  have h1 : rheInt (x * m) ≤ rheInt (y * m) :=
    rheInt_mono (mul_le_mul_of_nonneg_right h hm.le)
  have h2 : ((rheInt (x * m) : ℚ)) ≤ ((rheInt (y * m) : ℚ)) := by exact_mod_cast h1
  exact div_le_div_of_nonneg_right h2 hm.le

theorem roundQ_nonneg (m : ℚ) (hm : 0 < m) {x : ℚ} (hx : 0 ≤ x) :
    0 ≤ roundQ m x := by
  unfold roundQ
  apply div_nonneg ?_ hm.le
  have h0 : (0 : ℤ) ≤ rheInt (x * m) := by
    have h1 := rheInt_floor_le (x * m)
    have hf : (0 : ℤ) ≤ ⌊x * m⌋ := Int.floor_nonneg.mpr (by positivity)
    omega
  exact_mod_cast h0

theorem ratSqrt_nonneg (q : ℚ) (_ : 0 ≤ q) : 0 ≤ ratSqrt q := by
  unfold ratSqrt
  split_ifs with h1 h2
  · exact le_refl 0
  · exact div_nonneg (by positivity) (by positivity)
  · exact le_of_not_le h1

theorem ratSqrt_pos (q : ℚ) (h : 0 < q) : 0 < ratSqrt q := by
  unfold ratSqrt
  rw [if_neg (not_le.mpr h)]
  split_ifs with h2
  · have hnum : 0 < q.num.toNat := by
      have hn := Rat.num_pos.mpr h
      omega
    have hden : 0 < q.den := q.pos
    have hs1 : 0 < isqrt q.num.toNat := by
      rcases Nat.eq_zero_or_pos (isqrt q.num.toNat) with h0 | h0
      · exfalso
        have h21 := h2.1
        rw [h0] at h21
        omega
      · exact h0
    have hs2 : 0 < isqrt q.den := by
      rcases Nat.eq_zero_or_pos (isqrt q.den) with h0 | h0
      · exfalso
        have h22 := h2.2
        rw [h0] at h22
        omega
      · exact h0
    have c1 : (0 : ℚ) < (isqrt q.num.toNat : ℚ) := by exact_mod_cast hs1
    have c2 : (0 : ℚ) < (isqrt q.den : ℚ) := by exact_mod_cast hs2
    exact div_pos c1 c2
  · exact h

theorem ratSqrt_zero : ratSqrt 0 = 0 := by
  unfold ratSqrt
  rw [if_pos le_rfl]

theorem qMean_nonneg {l : List ℚ} (h : ∀ x ∈ l, 0 ≤ x) : 0 ≤ qMean l := by
  unfold qMean
  exact div_nonneg (List.sum_nonneg h) (by positivity)

theorem qMean_pos {l : List ℚ} (hne : l ≠ []) (h : ∀ x ∈ l, 0 < x) :
    0 < qMean l := by
  unfold qMean
  have hlen : 0 < (l.length : ℚ) := by
    have : 0 < l.length := List.length_pos.mpr hne
    exact_mod_cast this
  exact div_pos (List.sum_pos l h hne) hlen

theorem qVariance_nonneg (l : List ℚ) : 0 ≤ qVariance l := by
  unfold qVariance
  apply div_nonneg ?_ (by positivity)
  apply List.sum_nonneg
  intro x hx
  rcases List.mem_map.mp hx with ⟨y, _, rfl⟩
  exact mul_self_nonneg _

theorem qMean_const {l : List ℚ} {c : ℚ} (hne : l ≠ []) (h : ∀ x ∈ l, x = c) :
    qMean l = c := by
  unfold qMean
  have hsum : l.sum = (l.length : ℚ) * c := by
    induction l with
    | nil => simp
    | cons a t ih =>
        have ha : a = c := h a (List.mem_cons_self a t)
        by_cases ht : t = []
        · subst ht; simp [ha]
        · have := ih ht (fun x hx => h x (List.mem_cons_of_mem a hx))
          simp [this, ha, List.length_cons]
          ring
  rw [hsum]
  have hlen : (l.length : ℚ) ≠ 0 := by
    have : 0 < l.length := List.length_pos.mpr hne
    positivity
  field_simp

theorem sumSq_eq_zero_iff (m : ℚ) :
    ∀ l : List ℚ, ((l.map (fun x => (x - m) * (x - m))).sum = 0 ↔ ∀ x ∈ l, x = m) := by
  intro l
  induction l with
  | nil => simp
  | cons a t ih =>
      simp only [List.map_cons, List.sum_cons, List.mem_cons]
      have h1 : 0 ≤ (a - m) * (a - m) := mul_self_nonneg _
      have h2 : 0 ≤ ((t.map (fun x => (x - m) * (x - m))).sum) := by
        apply List.sum_nonneg
        intro x hx
        rcases List.mem_map.mp hx with ⟨y, _, rfl⟩
        exact mul_self_nonneg _
      rw [add_eq_zero_iff_of_nonneg h1 h2]
      constructor
      · rintro ⟨hz, hrest⟩
        have ha : a = m := by
          have := mul_self_eq_zero.mp hz
          linarith [sub_eq_zero.mp this]
        intro x hx
        rcases hx with rfl | hx
        · exact ha
        · exact ih.mp hrest x hx
      · intro hall
        constructor
        · have : a - m = 0 := sub_eq_zero.mpr (hall a (Or.inl rfl))
          rw [this]; ring
        · exact ih.mpr (fun x hx => hall x (Or.inr hx))

theorem qVariance_eq_zero_iff {l : List ℚ} (hne : l ≠ []) :
    qVariance l = 0 ↔ ∀ x ∈ l, x = qMean l := by
  unfold qVariance
  have hlen : (l.length : ℚ) ≠ 0 := by
    have : 0 < l.length := List.length_pos.mpr hne
    positivity
  rw [div_eq_zero_iff]
  rw [sumSq_eq_zero_iff (qMean l) l]
  constructor
  · rintro (h | h)
    · exact h
    · exact absurd h hlen
  · exact Or.inl

theorem all_pairwise_iff_all_eq_mean {l : List ℚ} (hne : l ≠ []) :
    (∀ a ∈ l, ∀ b ∈ l, a = b) ↔ ∀ x ∈ l, x = qMean l := by
  constructor
  · intro hp
    rcases l with _ | ⟨a, t⟩
    · exact absurd rfl hne
    · have hall : ∀ x ∈ a :: t, x = a :=
        fun x hx => hp x hx a (List.mem_cons_self a t)
      have hm : qMean (a :: t) = a := qMean_const hne hall
      intro x hx
      rw [hm]
      exact hall x hx
  · intro h a ha b hb
    rw [h a ha, h b hb]

theorem matchGo_skip (thr : ℚ) (pbox : Box) (d : FallDet)
    (h : calculateIou pbox d.bbox = thr) :
    ∀ (l1 l2 : List FallDet) (s : Bool × ℚ × ℚ),
      matchGo thr pbox s (l1 ++ d :: l2) = matchGo thr pbox s (l1 ++ l2) := by
  intro l1
  induction l1 with
  | nil =>
      intro l2 s
      simp only [List.nil_append, matchGo, h]
      rw [if_neg]
      rintro ⟨h1, _⟩
      exact lt_irrefl thr h1
  | cons a t ih =>
      intro l2 s
      simp only [List.cons_append, matchGo]
      split
      · exact ih l2 _
      · exact ih l2 s

/-- C9: detection association uses a strict convention at the IoU boundary —
a fall/normal box whose IoU with the person box is exactly the threshold
never matches: removing it from the detection list (at any position) leaves
the person's `(is_fall, fall_conf, best_iou)` result of `_match_detections`
unchanged. -/
theorem c9_iou_boundary_no_match (thr : ℚ) (pbox : Box) (d : FallDet)
    (h : calculateIou pbox d.bbox = thr) (l1 l2 : List FallDet) :
    matchOne thr pbox (l1 ++ d :: l2) = matchOne thr pbox (l1 ++ l2) :=
  matchGo_skip thr pbox d h l1 l2 (false, 0, 0)

/-- Witness for C9: a person box `[0,0,10,10]` and a fall box `[0,0,10,3]`
have IoU exactly `0.3`; with threshold `0.3` the box does not match and the
person keeps the default non-fall state. -/
theorem c9_witness :
    calculateIou ⟨0, 0, 10, 10⟩ (⟨⟨0, 0, 10, 3⟩, true, 9/10⟩ : FallDet).bbox = 3/10 ∧
    matchOne (3/10) ⟨0, 0, 10, 10⟩ [⟨⟨0, 0, 10, 3⟩, true, 9/10⟩] = (false, 0, 0) :=
  ⟨by decide,
   by
     have h := c9_iou_boundary_no_match (3/10) ⟨0, 0, 10, 10⟩
       ⟨⟨0, 0, 10, 3⟩, true, 9/10⟩ (by decide) [] []
     simpa using h⟩

theorem matchGo_isFall_iff (thr : ℚ) (pbox : Box) :
    ∀ (ds : List FallDet) (f : Bool) (fc b : ℚ),
      (matchGo thr pbox (f, fc, b) ds).1 = true ↔
        (f = true ∨ ∃ j, j < ds.length ∧ (ds.getD j dDet).isFall = true ∧
          thr < calculateIou pbox (ds.getD j dDet).bbox ∧
          b < calculateIou pbox (ds.getD j dDet).bbox ∧
          ∀ k, k < j → thr < calculateIou pbox (ds.getD k dDet).bbox →
            calculateIou pbox (ds.getD k dDet).bbox <
              calculateIou pbox (ds.getD j dDet).bbox) := by
  intro ds
  induction ds with
  | nil =>
      intro f fc b
      simp [matchGo]
  | cons d t ih =>
      intro f fc b
      simp only [matchGo]
      split
      case isTrue hc =>
        by_cases hd : d.isFall = true
        case pos =>
          rw [if_pos hd, ih]
          constructor
          · intro _
            right
            refine ⟨0, by simp, ?_, ?_, ?_, ?_⟩
            · simpa using hd
            · simpa using hc.1
            · simpa using hc.2
            · intro k hk
              exact absurd hk (Nat.not_lt_zero k)
          · intro _
            left
            rfl
        case neg =>
          rw [if_neg hd, ih]
          constructor
          · rintro (hf | ⟨j, hj, hfall, hthr, hbase, hprev⟩)
            · exact Or.inl hf
            · right
              refine ⟨j + 1, by simpa using hj, by simpa using hfall,
                by simpa using hthr, ?_, ?_⟩
              · simp only [List.getD_cons_succ]
                exact lt_trans hc.2 hbase
              · intro k hk
                rcases k with _ | k
                · intro _
                  simpa using hbase
                · intro hthrk
                  simp only [List.getD_cons_succ] at hthrk ⊢
                  exact hprev k (by omega) hthrk
          · rintro (hf | ⟨j, hj, hfall, hthr, hbase, hprev⟩)
            · exact Or.inl hf
            · rcases j with _ | j
              · simp only [List.getD_cons_zero] at hfall
                exact absurd hfall hd
              · right
                simp only [List.getD_cons_succ] at hfall hthr hbase
                refine ⟨j, by simpa using hj, hfall, hthr, ?_, ?_⟩
                · have h0 := hprev 0 (by omega) (by simpa using hc.1)
                  simpa using h0
                · intro k hk hthrk
                  have hk1 := hprev (k + 1) (by omega)
                  simp only [List.getD_cons_succ] at hk1
                  exact hk1 hthrk
      case isFalse hc =>
        rw [ih]
        constructor
        · rintro (hf | ⟨j, hj, hfall, hthr, hbase, hprev⟩)
          · exact Or.inl hf
          · right
            refine ⟨j + 1, by simpa using hj, by simpa using hfall,
              by simpa using hthr, by simpa using hbase, ?_⟩
            intro k hk
            rcases k with _ | k
            · intro hthr0
              simp only [List.getD_cons_zero] at hthr0
              simp only [List.getD_cons_succ]
              have hib : calculateIou pbox d.bbox ≤ b := by
                by_contra hlt
                exact hc ⟨hthr0, lt_of_not_le hlt⟩
              exact lt_of_le_of_lt hib hbase
            · intro hthrk
              simp only [List.getD_cons_succ] at hthrk ⊢
              exact hprev k (by omega) hthrk
        · rintro (hf | ⟨j, hj, hfall, hthr, hbase, hprev⟩)
          · exact Or.inl hf
          · rcases j with _ | j
            · simp only [List.getD_cons_zero] at hthr hbase
              exact absurd ⟨hthr, hbase⟩ hc
            · right
              simp only [List.getD_cons_succ] at hfall hthr hbase
              refine ⟨j, by simpa using hj, hfall, hthr, hbase, ?_⟩
              intro k hk hthrk
              have hk1 := hprev (k + 1) (by omega)
              simp only [List.getD_cons_succ] at hk1
              exact hk1 hthrk

/-- C1 (amended): in `_match_detections`, a person's `is_fall` flag does not
in general follow the single best-overlapping box. Scanning the fall/normal
boxes in list order, a box updates the state only when its IoU strictly
exceeds both the threshold and the best IoU so far; a fall box then sets
`is_fall = True`, while a normal box only raises the best IoU and never
resets `is_fall`. Hence, for a nonnegative threshold, `is_fall` is true
exactly when some fall-classed box strictly improves the running maximum:
its IoU exceeds the threshold and strictly exceeds the IoU of every earlier
box that itself exceeded the threshold. -/
theorem c1_matchOne_isFall_characterization (thr : ℚ) (hthr : 0 ≤ thr)
    (pbox : Box) (dets : List FallDet) :
    (matchOne thr pbox dets).1 = true ↔
      ∃ j, j < dets.length ∧ (dets.getD j dDet).isFall = true ∧
        thr < calculateIou pbox (dets.getD j dDet).bbox ∧
        ∀ k, k < j → thr < calculateIou pbox (dets.getD k dDet).bbox →
          calculateIou pbox (dets.getD k dDet).bbox <
            calculateIou pbox (dets.getD j dDet).bbox := by
  unfold matchOne
  rw [matchGo_isFall_iff]
  constructor
  · rintro (hf | ⟨j, hj, hfall, hthrj, _, hprev⟩)
    · exact absurd hf (by simp)
    · exact ⟨j, hj, hfall, hthrj, hprev⟩
  · rintro ⟨j, hj, hfall, hthrj, hprev⟩
    right
    exact ⟨j, hj, hfall, hthrj, lt_of_le_of_lt hthr hthrj, hprev⟩

/-- Counterexample to C1 as stated: person box `[0,0,10,10]`, a fall box
with IoU `0.5` followed by a normal box with IoU `0.6` (both above the
`0.3` threshold). The best-overlapping box is classed normal, yet
`_match_detections` reports the person as fallen with the stale fall
confidence `0.9` and the normal box's IoU as the best overlap. -/
theorem c1_counterexample :
    matchDetections (3/10) [⟨⟨0, 0, 10, 10⟩, 19/20⟩]
        [⟨⟨0, 0, 10, 5⟩, true, 9/10⟩, ⟨⟨0, 0, 10, 6⟩, false, 8/10⟩] =
      [{ bbox := ⟨0, 0, 10, 10⟩, isFall := true, conf := 19/20,
         fallConf := 9/10, className := "fall", bestIou := 3/5 }] ∧
    calculateIou ⟨0, 0, 10, 10⟩ ⟨0, 0, 10, 6⟩ = 3/5 ∧
    calculateIou ⟨0, 0, 10, 10⟩ ⟨0, 0, 10, 5⟩ = 1/2 ∧
    ((1:ℚ)/2 < 3/5 ∧ (3:ℚ)/10 < 1/2) := by
  refine ⟨?_, by decide, by decide, by decide, by decide⟩
  decide

/-- Witness for C1 (amended) at threshold `0.3`: the single fall box with
IoU `0.5` strictly improves the running maximum, so `is_fall` is true. -/
theorem c1_witness :
    (0:ℚ) ≤ 3/10 ∧
    ((matchOne (3/10) ⟨0, 0, 10, 10⟩ [⟨⟨0, 0, 10, 5⟩, true, 9/10⟩]).1 = true ↔
      ∃ j, j < ([⟨⟨0, 0, 10, 5⟩, true, 9/10⟩] : List FallDet).length ∧
        (([⟨⟨0, 0, 10, 5⟩, true, 9/10⟩] : List FallDet).getD j dDet).isFall = true ∧
        (3:ℚ)/10 < calculateIou ⟨0, 0, 10, 10⟩
          (([⟨⟨0, 0, 10, 5⟩, true, 9/10⟩] : List FallDet).getD j dDet).bbox ∧
        ∀ k, k < j → (3:ℚ)/10 < calculateIou ⟨0, 0, 10, 10⟩
            (([⟨⟨0, 0, 10, 5⟩, true, 9/10⟩] : List FallDet).getD k dDet).bbox →
          calculateIou ⟨0, 0, 10, 10⟩
              (([⟨⟨0, 0, 10, 5⟩, true, 9/10⟩] : List FallDet).getD k dDet).bbox <
            calculateIou ⟨0, 0, 10, 10⟩
              (([⟨⟨0, 0, 10, 5⟩, true, 9/10⟩] : List FallDet).getD j dDet).bbox) :=
  ⟨by decide,
   c1_matchOne_isFall_characterization (3/10) (by decide) ⟨0, 0, 10, 10⟩
     [⟨⟨0, 0, 10, 5⟩, true, 9/10⟩]⟩

/-- C5: the "no cycles" guard in `detect_gait_cycles` is dead code and short
series fault instead. The shrunk window length is `max(3, ...)`, so it is
never below 3 and the explicit "no cycles" return is unreachable; for series
of 0, 1 or 2 samples the window (3) exceeds the sample count and
`scipy.signal.savgol_filter` raises `ValueError`, aborting the detection
instead of returning the graceful "no cycles" result the spec describes. -/
theorem c5_short_series_faults :
    detectGaitCyclesOutcome 2 = GaitDetectOutcome.savgolValueError ∧
    detectGaitCyclesOutcome 1 = GaitDetectOutcome.savgolValueError ∧
    detectGaitCyclesOutcome 0 = GaitDetectOutcome.savgolValueError ∧
    (∀ n : ℕ, detectGaitCyclesOutcome n ≠ GaitDetectOutcome.noCycles) ∧
    (∀ n : ℕ, 3 ≤ n → detectGaitCyclesOutcome n = GaitDetectOutcome.proceeds) := by
  have hwl : ∀ n : ℕ, 3 ≤ savgolWindow n := by
    intro n
    unfold savgolWindow
    split_ifs
    · exact le_max_left 3 _
    · exact le_max_left 3 _
    · omega
  refine ⟨by decide, by decide, by decide, ?_, ?_⟩
  · intro n
    unfold detectGaitCyclesOutcome
    rw [if_neg (by have := hwl n; omega)]
    split_ifs <;> simp
  · intro n hn
    unfold detectGaitCyclesOutcome
    rw [if_neg (by have := hwl n; omega)]
    rw [if_neg]
    have hle : savgolWindow n ≤ (n : ℤ) := by
      unfold savgolWindow
      split_ifs with h1 h2
      · simp only [max_le_iff]
        constructor
        · exact_mod_cast hn
        · omega
      · simp only [max_le_iff]
        constructor
        · exact_mod_cast hn
        · omega
      · omega
    omega

theorem take_succ_getD {α : Type} (d : α) :
    ∀ (l : List α) (n : ℕ), n < l.length →
      l.take (n + 1) = l.take n ++ [l.getD n d]
  | [], n, h => absurd h (by simp)
  | a :: t, 0, _ => rfl
  | a :: t, n + 1, h => by
      simp only [List.take_succ_cons, List.getD_cons_succ]
      rw [take_succ_getD d t n (by simpa using h)]
      rfl

theorem getD_map {α β : Type} (f : α → β) (d : α) (dm : β) (hd : dm = f d) :
    ∀ (l : List α) (n : ℕ), n < l.length → (l.map f).getD n dm = f (l.getD n d)
  | [], n, h => absurd h (by simp)
  | a :: t, 0, _ => by simp [hd]
  | a :: t, n + 1, h => by
      simp only [List.map_cons, List.getD_cons_succ]
      exact getD_map f d dm hd t n (by simpa using h)

theorem windowAfter_append (ws : ℕ) (l : List Bool) (x : Bool) :
    windowAfter ws (l ++ [x]) = pushWin ws (windowAfter ws l) x := by
  unfold windowAfter
  rw [List.foldl_append]
  rfl

theorem fdRun_append (P : FDParams) (l : List (ℕ × Bool × ℚ)) (x : ℕ × Bool × ℚ) :
    fdRun P (l ++ [x]) = fdStep P (fdRun P l) x := by
  unfold fdRun
  rw [List.foldl_append]
  rfl

theorem fdStep_not_smoothed (P : FDParams) (s : FDState) (fr : ℕ × Bool × ℚ)
    (h : smoothedOf P.windowSize (pushWin P.windowSize s.window fr.2.1) = false)
    (hin : s.inFallEvent = false) :
    fdStep P s fr =
      { s with window := pushWin P.windowSize s.window fr.2.1,
               framesSince := s.framesSince + 1 } := by
  simp [fdStep, h, hin]

theorem fdStep_open (P : FDParams) (s : FDState) (fr : ℕ × Bool × ℚ)
    (h : smoothedOf P.windowSize (pushWin P.windowSize s.window fr.2.1) = true)
    (hin : s.inFallEvent = false)
    (hcd : P.cooldownFrames ≤ s.framesSince + 1) :
    fdStep P s fr =
      { s with window := pushWin P.windowSize s.window fr.2.1,
               framesSince := s.framesSince + 1, inFallEvent := true,
               startFrame := some fr.1, confSum := fr.2.2, confCount := 1 } := by
  simp [fdStep, h, hin, hcd]

theorem pushWin_windowAfter (ws : ℕ) (frames : List (ℕ × Bool × ℚ)) (n : ℕ)
    (hn : n < frames.length) :
    pushWin ws (windowAfter ws ((frames.map (fun fr => fr.2.1)).take n))
        (frames.getD n (0, false, 0)).2.1 =
      windowAfter ws ((frames.map (fun fr => fr.2.1)).take (n + 1)) := by
  rw [take_succ_getD false _ n (by simpa using hn), windowAfter_append]
  rw [getD_map (fun fr => fr.2.1) (0, false, 0) false rfl frames n hn]

theorem fdRun_idle (P : FDParams) (frames : List (ℕ × Bool × ℚ)) :
    ∀ n, n ≤ frames.length →
      (∀ j, j < n → smoothedAt P.windowSize (frames.map (fun fr => fr.2.1)) j = false) →
      fdRun P (frames.take n) =
        { window := windowAfter P.windowSize ((frames.map (fun fr => fr.2.1)).take n),
          inFallEvent := false, startFrame := none, confSum := 0, confCount := 0,
          framesSince := P.cooldownFrames + n, events := [] } := by
  intro n
  induction n with
  | zero =>
      intro _ _
      simp [fdRun, fdInit, windowAfter]
  | succ n ih =>
      intro hn hsm
      have hlt : n < frames.length := by omega
      rw [take_succ_getD (0, false, 0) frames n hlt, fdRun_append,
        ih (by omega) (fun j hj => hsm j (by omega))]
      rw [fdStep_not_smoothed]
      · simp only
        rw [pushWin_windowAfter P.windowSize frames n hlt, Nat.add_assoc]
      · dsimp only
        rw [pushWin_windowAfter P.windowSize frames n hlt]
        exact hsm n (by omega)
      · rfl

/-- C10: the cooldown never suppresses the first event of a stream. The
frames-since-last-event counter starts at the full cooldown count, so in any
run of the state machine (with any parameters, hence in both `detect_video`
and `detect_frames_buffer`), at the first frame whose smoothed flag is true
the machine — still idle, with no events emitted — opens an event
immediately, recording that frame's original index as the start. -/
theorem c10_first_event_not_suppressed (P : FDParams)
    (frames : List (ℕ × Bool × ℚ)) (i : ℕ) (hi : i < frames.length)
    (hbefore : ∀ j, j < i →
      smoothedAt P.windowSize (frames.map (fun fr => fr.2.1)) j = false)
    (hat : smoothedAt P.windowSize (frames.map (fun fr => fr.2.1)) i = true) :
    (fdRun P (frames.take (i + 1))).inFallEvent = true ∧
    (fdRun P (frames.take (i + 1))).startFrame =
      some (frames.getD i (0, false, 0)).1 ∧
    (fdRun P (frames.take (i + 1))).events = [] := by
  rw [take_succ_getD (0, false, 0) frames i hi, fdRun_append,
    fdRun_idle P frames i (le_of_lt hi) hbefore]
  rw [fdStep_open]
  · exact ⟨rfl, rfl, rfl⟩
  · dsimp only
    rw [pushWin_windowAfter P.windowSize frames i hi]
    exact hat
  · rfl
  · dsimp only
    omega

/-- Witness for C10: with the `detect_video` parameters at 30 fps
(cooldown 60 sampled frames), three consecutive positive frames make the
smoothed flag first true at index 2, and the machine opens an event right
there — at the very start of the stream, long before 60 frames have
elapsed. -/
theorem c10_witness :
    (2 < ([(0, true, (1:ℚ)/2), (1, true, 1/2), (2, true, 1/2)] : List (ℕ × Bool × ℚ)).length) ∧
    (∀ j, j < 2 → smoothedAt (videoParams 30).windowSize
      (([(0, true, (1:ℚ)/2), (1, true, 1/2), (2, true, 1/2)] : List (ℕ × Bool × ℚ)).map
        (fun fr => fr.2.1)) j = false) ∧
    (smoothedAt (videoParams 30).windowSize
      (([(0, true, (1:ℚ)/2), (1, true, 1/2), (2, true, 1/2)] : List (ℕ × Bool × ℚ)).map
        (fun fr => fr.2.1)) 2 = true) ∧
    ((fdRun (videoParams 30)
        (([(0, true, (1:ℚ)/2), (1, true, 1/2), (2, true, 1/2)] : List (ℕ × Bool × ℚ)).take
          (2 + 1))).inFallEvent = true ∧
     (fdRun (videoParams 30)
        (([(0, true, (1:ℚ)/2), (1, true, 1/2), (2, true, 1/2)] : List (ℕ × Bool × ℚ)).take
          (2 + 1))).startFrame =
        some (([(0, true, (1:ℚ)/2), (1, true, 1/2), (2, true, 1/2)] :
          List (ℕ × Bool × ℚ)).getD 2 (0, false, 0)).1 ∧
     (fdRun (videoParams 30)
        (([(0, true, (1:ℚ)/2), (1, true, 1/2), (2, true, 1/2)] : List (ℕ × Bool × ℚ)).take
          (2 + 1))).events = []) :=
  ⟨by decide, by decide, by decide,
   c10_first_event_not_suppressed (videoParams 30)
     [(0, true, (1:ℚ)/2), (1, true, 1/2), (2, true, 1/2)] 2
     (by decide) (by decide) (by decide)⟩

theorem countB_append (l1 l2 : List Bool) :
    countB (l1 ++ l2) = countB l1 + countB l2 := by
  simp [countB, List.filter_append]

theorem countB_tail_le (l : List Bool) : countB l.tail ≤ countB l := by
  cases l with
  | nil => exact le_refl 0
  | cons a t =>
      cases a <;> simp [countB, List.filter_cons]

theorem countB_pushWin_le (ws : ℕ) (w : List Bool) (x : Bool) :
    countB (pushWin ws w x) ≤ countB (w ++ [x]) := by
  simp only [pushWin]
  split_ifs
  · exact countB_tail_le _
  · exact le_refl _

theorem countB_take_le (l : List Bool) (n : ℕ) : countB (l.take n) ≤ countB l := by
  conv_rhs => rw [← List.take_append_drop n l]
  rw [countB_append]
  exact Nat.le_add_right _ _

theorem countB_windowAfter_le (ws : ℕ) (flags : List Bool) :
    countB (windowAfter ws flags) ≤ countB flags := by
  induction flags using List.reverseRecOn with
  | nil => exact le_refl 0
  | append_singleton l x ih =>
      rw [windowAfter_append, countB_append]
      exact le_trans (countB_pushWin_le ws _ x)
        (by rw [countB_append]; omega)

theorem smoothedAt_false_of_count_le_one (ws : ℕ) (hws : 3 ≤ ws)
    (flags : List Bool) (hc : countB flags ≤ 1) (j : ℕ) :
    smoothedAt ws flags j = false := by
  unfold smoothedAt smoothedOf
  by_cases hlen : min ws 3 ≤ (windowAfter ws (flags.take (j + 1))).length
  · have hcw : countB (windowAfter ws (flags.take (j + 1))) ≤ 1 :=
      le_trans (countB_windowAfter_le _ _) (le_trans (countB_take_le _ _) hc)
    have h3 : 3 ≤ (windowAfter ws (flags.take (j + 1))).length := by
      rw [min_eq_right hws] at hlen
      exact hlen
    have hlt : ¬((1:ℚ)/2 ≤
        (countB (windowAfter ws (flags.take (j + 1))) : ℚ) /
          ((windowAfter ws (flags.take (j + 1))).length : ℚ)) := by
      apply not_le.mpr
      rw [div_lt_iff₀ (by exact_mod_cast Nat.lt_of_lt_of_le (by norm_num) h3)]
      have hcq : (countB (windowAfter ws (flags.take (j + 1))) : ℚ) ≤ 1 := by
        exact_mod_cast hcw
      have hlq : (3:ℚ) ≤ ((windowAfter ws (flags.take (j + 1))).length : ℚ) := by
        exact_mod_cast h3
      linarith
    rw [decide_eq_false hlt, Bool.and_false]
  · rw [decide_eq_false hlen, Bool.false_and]

/-- C6: a per-frame fall-flag stream in which exactly one frame is true
(surrounded by false frames) produces zero fall events in `detect_video`:
the vote window needs at least 3 buffered samples and a ratio of at least
0.5, which a single true frame can never reach, so the machine never leaves
`idle` and no event is emitted — in particular the single frame, which is
far below the minimum-duration threshold, is discarded. -/
theorem c6_single_true_frame_no_events (fps : ℚ) (frames : List (Bool × ℚ))
    (h : countB (frames.map Prod.fst) = 1) :
    detectVideoFallEvents fps frames = [] := by
  unfold detectVideoFallEvents
  dsimp only
  have hws : 3 ≤ (videoParams fps).windowSize :=
    le_trans (by norm_num) (le_max_left 5 _)
  have hmap : (frames.enum.map (fun p => (p.1, p.2.1, p.2.2))).map
      (fun fr => fr.2.1) = frames.map Prod.fst := by
    rw [List.map_map]
    show frames.enum.map (Prod.fst ∘ Prod.snd) = frames.map Prod.fst
    rw [← List.map_map, List.enum_map_snd]
  have hidle := fdRun_idle (videoParams fps)
    (frames.enum.map (fun p => (p.1, p.2.1, p.2.2)))
    (frames.enum.map (fun p => (p.1, p.2.1, p.2.2))).length le_rfl
    (fun j _ => by
      rw [hmap]
      exact smoothedAt_false_of_count_le_one _ hws _ (le_of_eq h) j)
  rw [List.take_length] at hidle
  rw [hidle]
  rfl

/-- Witness for C6: a 5-frame stream with a single positive detection at
frame 2 yields no fall events at 30 fps. -/
theorem c6_witness :
    countB (([(false, (0:ℚ)), (false, 0), (true, 9/10), (false, 0), (false, 0)] :
      List (Bool × ℚ)).map Prod.fst) = 1 ∧
    detectVideoFallEvents 30
      [(false, (0:ℚ)), (false, 0), (true, 9/10), (false, 0), (false, 0)] = [] :=
  ⟨by decide,
   c6_single_true_frame_no_events 30
     [(false, (0:ℚ)), (false, 0), (true, 9/10), (false, 0), (false, 0)] (by decide)⟩

/-- C2 (amended): when neither side has at least 2 detected foot-contact
events, `has_valid_gait` is false and the four cycle-derived metrics —
cadence, cycle time, symmetry index and variability coefficient — are
undefined; the remaining metrics (torso stability and tilt, step length,
swing amplitude, knee range of motion) are guarded only by their own data
conditions and may still be defined. -/
theorem c2_no_valid_gait_cycle_metrics_undefined (sq acosDeg : ℚ → ℚ)
    (df : List FrameRow) (torso : Option TorsoRec) (gci : GaitCycleInfo)
    (hL : gci.valleysLeft.length < 2) (hR : gci.valleysRight.length < 2) :
    (calcGaitMetrics sq acosDeg df torso gci).2 = false ∧
    (calcGaitMetrics sq acosDeg df torso gci).1.cadence = none ∧
    (calcGaitMetrics sq acosDeg df torso gci).1.gaitCycle = none ∧
    (calcGaitMetrics sq acosDeg df torso gci).1.symmetryIndex = none ∧
    (calcGaitMetrics sq acosDeg df torso gci).1.variabilityCoef = none := by
  have hv : (decide (2 ≤ gci.valleysLeft.length) ||
      decide (2 ≤ gci.valleysRight.length)) = false := by
    rw [decide_eq_false (by omega), decide_eq_false (by omega), Bool.or_false]
  simp only [calcGaitMetrics, hv]
  refine ⟨trivial, ?_, ?_, ?_, ?_⟩
  · cases gci.cadence <;> simp
  · cases gci.meanGaitCycleRight <;> cases gci.meanGaitCycleLeft <;> simp
  · cases gci.meanGaitCycleRight <;> cases gci.meanGaitCycleLeft <;> simp
  · simp

/-- Witness for C2 (amended): an empty keypoint frame, no torso data, and a
cycle dictionary with no detected events. -/
theorem c2_witness :
    (mkGaitCycleInfo [] [] 3 30).valleysLeft.length < 2 ∧
    (mkGaitCycleInfo [] [] 3 30).valleysRight.length < 2 ∧
    ((calcGaitMetrics ratSqrt id [] none (mkGaitCycleInfo [] [] 3 30)).2 = false ∧
     (calcGaitMetrics ratSqrt id [] none (mkGaitCycleInfo [] [] 3 30)).1.cadence = none ∧
     (calcGaitMetrics ratSqrt id [] none (mkGaitCycleInfo [] [] 3 30)).1.gaitCycle = none ∧
     (calcGaitMetrics ratSqrt id [] none (mkGaitCycleInfo [] [] 3 30)).1.symmetryIndex = none ∧
     (calcGaitMetrics ratSqrt id [] none (mkGaitCycleInfo [] [] 3 30)).1.variabilityCoef = none) :=
  ⟨by decide, by decide,
   c2_no_valid_gait_cycle_metrics_undefined ratSqrt id [] none
     (mkGaitCycleInfo [] [] 3 30) (by decide) (by decide)⟩

/-- Counterexample to C2 as stated: three frames whose right-ankle vertical
coordinate varies while no foot-contact events were detected (no valid
gait). The claim demands every derived metric be undefined, but the swing
amplitude is computed from the raw ankle trajectories alone and comes out
defined (`0.1`). -/
theorem c2_counterexample :
    (mkGaitCycleInfo [] [] 3 30).valleysLeft.length < 2 ∧
    (mkGaitCycleInfo [] [] 3 30).valleysRight.length < 2 ∧
    (calcGaitMetrics ratSqrt id
        [{ rightAnkleY := some (1/10), leftAnkleY := some (1/10) },
         { rightAnkleY := some (2/10), leftAnkleY := some (1/10) },
         { rightAnkleY := some (3/10), leftAnkleY := some (1/10) }]
        none (mkGaitCycleInfo [] [] 3 30)).1.swingAmplitude = some (1/10) := by
  refine ⟨by decide, by decide, ?_⟩
  decide

theorem natDiffs_length : ∀ l : List ℕ, (natDiffs l).length = l.length - 1
  | [] => rfl
  | [_] => rfl
  | a :: b :: t => by
      simp only [natDiffs, List.length_cons]
      rw [natDiffs_length (b :: t)]
      simp

theorem natDiffs_pos : ∀ l : List ℕ, List.Chain' (· < ·) l →
    ∀ d ∈ natDiffs l, 0 < d
  | [], _, d, hd => absurd hd (by simp [natDiffs])
  | [_], _, d, hd => absurd hd (by simp [natDiffs])
  | a :: b :: t, h, d, hd => by
      rcases List.chain'_cons.mp h with ⟨hab, ht⟩
      simp only [natDiffs, List.mem_cons] at hd
      rcases hd with rfl | hd
      · omega
      · exact natDiffs_pos (b :: t) ht d hd

/-- C7 (amended): for pooled cycle-duration series built by
`detect_gait_cycles` from at least 2 frame-index differences, the stored
variability coefficient is defined and nonnegative, and the unrounded
coefficient `std/mean*100` computed by `calculate_gait_metrics` is 0 exactly
when all pooled durations are identical; the stored value is that
coefficient rounded to 1 decimal (so sub-0.05 dispersion also stores 0).
With fewer than 2 pooled durations the metric is undefined. -/
theorem c7_variability_coefficient (sq acosDeg : ℚ → ℚ)
    (hsq0 : sq 0 = 0) (hsqpos : ∀ q, 0 < q → 0 < sq q)
    (hsqnn : ∀ q, 0 ≤ q → 0 ≤ sq q)
    (valleysL valleysR : List ℕ)
    (hL : List.Chain' (· < ·) valleysL) (hR : List.Chain' (· < ·) valleysR)
    (nframes : ℕ) (fps : ℚ) (hfps : 0 < fps)
    (df : List FrameRow) (torso : Option TorsoRec)
    (gci : GaitCycleInfo) (hgci : gci = mkGaitCycleInfo valleysL valleysR nframes fps)
    (pooled : List ℚ) (hpooled : pooled = gci.gaitCyclesRight ++ gci.gaitCyclesLeft) :
    (2 ≤ pooled.length →
      (calcGaitMetrics sq acosDeg df torso gci).1.variabilityCoef =
        some (round1 (cvRaw sq pooled)) ∧
      0 ≤ round1 (cvRaw sq pooled) ∧
      (cvRaw sq pooled = 0 ↔ ∀ a ∈ pooled, ∀ b ∈ pooled, a = b)) ∧
    (pooled.length < 2 →
      (calcGaitMetrics sq acosDeg df torso gci).1.variabilityCoef = none) := by
  have hcycR : gci.gaitCyclesRight =
      (natDiffs valleysR).map (fun d : ℕ => (d : ℚ) / fps) := by
    rw [hgci]; rfl
  have hcycL : gci.gaitCyclesLeft =
      (natDiffs valleysL).map (fun d : ℕ => (d : ℚ) / fps) := by
    rw [hgci]; rfl
  have hvalL : gci.valleysLeft = valleysL := by rw [hgci]; rfl
  have hvalR : gci.valleysRight = valleysR := by rw [hgci]; rfl
  have hlen : pooled.length =
      (natDiffs valleysR).length + (natDiffs valleysL).length := by
    rw [hpooled, List.length_append, hcycR, hcycL, List.length_map, List.length_map]
  constructor
  · intro h2
    have hne : pooled ≠ [] := by
      intro he
      rw [he] at h2
      simp at h2
    have hposall : ∀ x ∈ pooled, 0 < x := by
      intro x hx
      rw [hpooled, List.mem_append] at hx
      rcases hx with hx | hx
      · rw [hcycR] at hx
        rcases List.mem_map.mp hx with ⟨d, hd, rfl⟩
        have hdp := natDiffs_pos valleysR hR d hd
        apply div_pos _ hfps
        exact_mod_cast hdp
      · rw [hcycL] at hx
        rcases List.mem_map.mp hx with ⟨d, hd, rfl⟩
        have hdp := natDiffs_pos valleysL hL d hd
        apply div_pos _ hfps
        exact_mod_cast hdp
    have hmean : 0 < qMean pooled := qMean_pos hne hposall
    have hcombined :
        (if 0 < gci.gaitCyclesRight.length ∨ 0 < gci.gaitCyclesLeft.length then
          gci.gaitCyclesRight ++ gci.gaitCyclesLeft else []) = pooled := by
      rw [if_pos, ← hpooled]
      by_contra hn
      push_neg at hn
      rw [hpooled, List.length_append] at h2
      omega
    have hv : (decide (2 ≤ gci.valleysLeft.length) ||
        decide (2 ≤ gci.valleysRight.length)) = true := by
      rw [hvalL, hvalR]
      have hR1 := natDiffs_length valleysR
      have hL1 := natDiffs_length valleysL
      by_cases hc : 2 ≤ valleysL.length
      · rw [decide_eq_true hc, Bool.true_or]
      · have hcr : 2 ≤ valleysR.length := by omega
        rw [decide_eq_true hcr, Bool.or_true]
    have hcv0 : 0 ≤ cvRaw sq pooled := by
      unfold cvRaw
      rw [if_pos hmean]
      apply mul_nonneg _ (by norm_num)
      exact div_nonneg (hsqnn _ (qVariance_nonneg pooled)) (le_of_lt hmean)
    refine ⟨?_, roundQ_nonneg 10 (by norm_num) hcv0, ?_⟩
    · simp only [calcGaitMetrics, hcombined, hv]
      rw [if_pos ⟨by omega, trivial⟩]
    · unfold cvRaw
      rw [if_pos hmean]
      have hm100 : (100:ℚ) ≠ 0 := by norm_num
      constructor
      · intro hz
        rcases mul_eq_zero.mp hz with hz1 | hz1
        · rcases div_eq_zero_iff.mp hz1 with hz2 | hz2
          · have hvz : qVariance pooled = 0 := by
              by_contra hvn
              have hvpos : 0 < qVariance pooled :=
                lt_of_le_of_ne (qVariance_nonneg pooled) (Ne.symm hvn)
              exact absurd hz2 (ne_of_gt (hsqpos _ hvpos))
            exact (all_pairwise_iff_all_eq_mean hne).mpr
              ((qVariance_eq_zero_iff hne).mp hvz)
          · exact absurd hz2 (ne_of_gt hmean)
        · exact absurd hz1 hm100
      · intro hpair
        have hvz : qVariance pooled = 0 :=
          (qVariance_eq_zero_iff hne).mpr
            ((all_pairwise_iff_all_eq_mean hne).mp hpair)
        rw [hvz, hsq0, zero_div, zero_mul]
  · intro hlt
    simp only [calcGaitMetrics]
    rw [if_neg]
    rintro ⟨h1, _⟩
    have hcl : (if 0 < gci.gaitCyclesRight.length ∨ 0 < gci.gaitCyclesLeft.length then
        gci.gaitCyclesRight ++ gci.gaitCyclesLeft else []).length ≤ pooled.length := by
      split_ifs
      · rw [hpooled]
      · simp
    omega

/-- Witness for C7 (amended): right-side peaks at frames 0, 12, 25 give two
pooled durations (12 s and 13 s at fps 1) and a defined, nonnegative
variability coefficient. -/
theorem c7_witness :
    List.Chain' (· < ·) ([] : List ℕ) ∧
    List.Chain' (· < ·) ([0, 12, 25] : List ℕ) ∧
    (0:ℚ) < 1 ∧
    2 ≤ ((mkGaitCycleInfo [] [0, 12, 25] 40 1).gaitCyclesRight ++
        (mkGaitCycleInfo [] [0, 12, 25] 40 1).gaitCyclesLeft).length ∧
    ((calcGaitMetrics ratSqrt id [] none
        (mkGaitCycleInfo [] [0, 12, 25] 40 1)).1.variabilityCoef =
      some (round1 (cvRaw ratSqrt
        ((mkGaitCycleInfo [] [0, 12, 25] 40 1).gaitCyclesRight ++
         (mkGaitCycleInfo [] [0, 12, 25] 40 1).gaitCyclesLeft))) ∧
     0 ≤ round1 (cvRaw ratSqrt
        ((mkGaitCycleInfo [] [0, 12, 25] 40 1).gaitCyclesRight ++
         (mkGaitCycleInfo [] [0, 12, 25] 40 1).gaitCyclesLeft)) ∧
     (cvRaw ratSqrt ((mkGaitCycleInfo [] [0, 12, 25] 40 1).gaitCyclesRight ++
         (mkGaitCycleInfo [] [0, 12, 25] 40 1).gaitCyclesLeft) = 0 ↔
       ∀ a ∈ (mkGaitCycleInfo [] [0, 12, 25] 40 1).gaitCyclesRight ++
           (mkGaitCycleInfo [] [0, 12, 25] 40 1).gaitCyclesLeft,
         ∀ b ∈ (mkGaitCycleInfo [] [0, 12, 25] 40 1).gaitCyclesRight ++
           (mkGaitCycleInfo [] [0, 12, 25] 40 1).gaitCyclesLeft, a = b)) :=
  ⟨by simp, by simp, by decide, by decide,
   (c7_variability_coefficient ratSqrt id ratSqrt_zero ratSqrt_pos ratSqrt_nonneg
     [] [0, 12, 25] (by simp) (by simp) 40 1 (by decide) [] none
     _ rfl _ rfl).1 (by decide)⟩

/-- Counterexample to C7 as stated: right-side peaks at frames 0, 1000, 2001
(fps 1) give pooled durations 1000 s and 1001 s — not identical, with
unrounded coefficient 100/2001 ≈ 0.05% — yet the stored variability
coefficient, rounded to one decimal, is exactly 0. -/
theorem c7_counterexample :
    ¬(∀ a ∈ (mkGaitCycleInfo [] [0, 1000, 2001] 2100 1).gaitCyclesRight ++
        (mkGaitCycleInfo [] [0, 1000, 2001] 2100 1).gaitCyclesLeft,
      ∀ b ∈ (mkGaitCycleInfo [] [0, 1000, 2001] 2100 1).gaitCyclesRight ++
        (mkGaitCycleInfo [] [0, 1000, 2001] 2100 1).gaitCyclesLeft, a = b) ∧
    (calcGaitMetrics ratSqrt id [] none
      (mkGaitCycleInfo [] [0, 1000, 2001] 2100 1)).1.variabilityCoef = some 0 := by
  constructor
  · decide
  · decide

theorem hardFilter_mem (values : List ℚ) (hl : Option (ℚ × ℚ)) :
    ∀ v ∈ hardFilter values hl, v ∈ values := by
  intro v hv
  unfold hardFilter at hv
  match hl with
  | none => exact hv
  | some (lo, hi) => exact (List.mem_filter.mp hv).1

theorem hardFilter_idem (values : List ℚ) (hl : Option (ℚ × ℚ)) :
    hardFilter (hardFilter values hl) hl = hardFilter values hl := by
  unfold hardFilter
  match hl with
  | none => rfl
  | some (lo, hi) =>
      apply List.filter_eq_self.mpr
      intro v hv
      exact (List.mem_filter.mp hv).2

theorem filterOutliers_mem (values : List ℚ) (hl : Option (ℚ × ℚ)) (b : Bool) :
    ∀ v ∈ (filterOutliers values hl b).1, v ∈ values := by
  intro v hv
  simp only [filterOutliers] at hv
  split_ifs at hv with h1 h2
  · simp at hv
  · simp only at hv
    unfold iqrFilter at hv
    exact hardFilter_mem values hl v ((List.mem_filter.mp hv).1)
  · simp only at hv
    exact hardFilter_mem values hl v hv

theorem filterOutliers_no_iqr (values : List ℚ) (hl : Option (ℚ × ℚ))
    (h : values ≠ []) :
    filterOutliers values hl false =
      (hardFilter values hl, values.length - (hardFilter values hl).length) := by
  unfold filterOutliers
  rw [if_neg h]
  simp only
  rw [if_neg (by simp)]

/-- C4 (amended): the hard-bound stage of the outlier filter is idempotent —
re-filtering an already-filtered list with the same hard bounds and IQR
filtering disabled returns the list unchanged with zero additional drops.
(With IQR filtering enabled the quartiles tighten on the filtered list and a
second application can drop further values, so the full filter is not
idempotent.) -/
theorem c4_hard_bound_idempotent (values : List ℚ) (hardLimits : Option (ℚ × ℚ)) :
    filterOutliers (filterOutliers values hardLimits false).1 hardLimits false =
      ((filterOutliers values hardLimits false).1, 0) := by
  by_cases he : values = []
  · subst he
    rfl
  · rw [filterOutliers_no_iqr values hardLimits he]
    simp only
    by_cases hf : hardFilter values hardLimits = []
    · rw [hf]
      rfl
    · rw [filterOutliers_no_iqr _ hardLimits hf]
      rw [hardFilter_idem values hardLimits, Nat.sub_self]

/-- Counterexample to C4 as stated: filtering `[0, 5, 10, 10, 10, 10]` (no
hard bounds, IQR on) keeps `[5, 10, 10, 10, 10]`, but re-filtering that
output drops the 5 as well (the quartiles collapse to `[10, 10]`), so the
second application is not the identity with zero drops. -/
theorem c4_counterexample :
    filterOutliers (filterOutliers [0, 5, 10, 10, 10, 10] none true).1 none true ≠
      ((filterOutliers [0, 5, 10, 10, 10, 10] none true).1, 0) := by
  decide

/-- C3 (amended): when outlier filtering retains at least one but fewer than
5 values, `calculate_dynamic_range` returns the population baseline exactly,
with the filter's outlier count. (When filtering retains zero values the
engine instead falls back to the raw non-null history, and the baseline is
returned only if that fallback also has fewer than 5 entries.) -/
theorem c3_baseline_when_few_values (sq : ℚ → ℚ) (values : List ℚ)
    (baseRange : ℚ × ℚ) (metricType : String) (hardLimits : Option (ℚ × ℚ))
    (hne : (filterOutliers values hardLimits true).1 ≠ [])
    (hlt : (filterOutliers values hardLimits true).1.length < 5) :
    calcDynamicRange sq values baseRange metricType hardLimits =
      (baseRange, (filterOutliers values hardLimits true).2) := by
  unfold calcDynamicRange
  simp only
  rw [if_neg hne, if_pos hlt]

/-- Witness for C3 (amended): three in-range values survive filtering, so the
baseline `[70, 130]` is returned unchanged with zero outliers counted. -/
theorem c3_witness :
    (filterOutliers [1, 2, 3] none true).1 ≠ [] ∧
    (filterOutliers [1, 2, 3] none true).1.length < 5 ∧
    calcDynamicRange ratSqrt [1, 2, 3] (70, 130) "normal" none =
      ((70, 130), (filterOutliers [1, 2, 3] none true).2) :=
  ⟨by decide, by decide,
   c3_baseline_when_few_values ratSqrt [1, 2, 3] (70, 130) "normal" none
     (by decide) (by decide)⟩

/-- Counterexample to C3 as stated: five identical values `1000` all violate
the hard bounds `[0, 10]`, so filtering retains zero values — fewer than 5 —
yet the engine does not return the baseline `[70, 130]`: it falls back to
the raw history and computes the personal blend `[616, 844]`. -/
theorem c3_counterexample :
    (filterOutliers [1000, 1000, 1000, 1000, 1000] (some (0, 10)) true).1.length < 5 ∧
    (calcDynamicRange ratSqrt [1000, 1000, 1000, 1000, 1000] (70, 130) "normal"
        (some (0, 10))).1 ≠ (70, 130) ∧
    (calcDynamicRange ratSqrt [1000, 1000, 1000, 1000, 1000] (70, 130) "normal"
        (some (0, 10))).1 = (616, 844) := by
  refine ⟨by decide, by decide, by decide⟩

/-- C8 (amended): with at least 5 values surviving outlier filtering and an
ordered baseline, the returned range satisfies `final_min <= final_max` for
`normal` metrics unconditionally; for `lower-is-better` metrics it
additionally satisfies `final_min >= 0`, and the ordering holds provided the
history values and the baseline maximum are nonnegative — as they are for
every lower-is-better metric configured in the app. (With negative history
values the clamped blend can invert the range.) -/
theorem c8_range_order (sq : ℚ → ℚ)
    (values : List ℚ) (baseRange : ℚ × ℚ) (metricType : String)
    (hardLimits : Option (ℚ × ℚ))
    (h5 : 5 ≤ (filterOutliers values hardLimits true).1.length)
    (hbase : baseRange.1 ≤ baseRange.2)
    (hlb : metricType = "lower_better" → (∀ v ∈ values, 0 ≤ v) ∧ 0 ≤ baseRange.2) :
    (calcDynamicRange sq values baseRange metricType hardLimits).1.1 ≤
      (calcDynamicRange sq values baseRange metricType hardLimits).1.2 ∧
    (metricType = "lower_better" →
      0 ≤ (calcDynamicRange sq values baseRange metricType hardLimits).1.1) := by
  have hFne : (filterOutliers values hardLimits true).1 ≠ [] := by
    intro h
    rw [h] at h5
    simp at h5
  have hn5 : ¬((filterOutliers values hardLimits true).1.length < 5) := by omega
  unfold calcDynamicRange
  simp only
  rw [if_neg hFne, if_neg hn5]
  dsimp only
  set F := (filterOutliers values hardLimits true).1 with hFdef
  set μ := qMean F with hμdef
  set σ := max (sq (qVariance F)) (if μ ≠ 0 then |μ| * (1/10) else 1) with hσdef
  have hσpos : 0 < σ := by
    rw [hσdef]
    by_cases hmz : μ = 0
    · rw [if_neg (not_not_intro hmz)]
      exact lt_of_lt_of_le one_pos (le_max_right _ _)
    · rw [if_pos hmz]
      have habs : 0 < |μ| * (1/10) :=
        mul_pos (abs_pos.mpr hmz) (by norm_num)
      exact lt_of_lt_of_le habs (le_max_right _ _)
  by_cases hm : metricType = "lower_better"
  · obtain ⟨hvals, hb2⟩ := hlb hm
    have hμnn : 0 ≤ μ := by
      rw [hμdef]
      exact qMean_nonneg
        (fun v hv => hvals v (filterOutliers_mem values hardLimits true v hv))
    rw [if_pos hm, if_pos hm]
    constructor
    · apply roundQ_mono 100 (by norm_num)
      have hfmax : 0 ≤ 7/10 * (μ + 3/2 * σ) + 3/10 * baseRange.2 := by
        nlinarith
      apply max_le hfmax
      have hpm : max 0 (μ - 3/2 * σ) ≤ μ + 3/2 * σ :=
        max_le (by linarith) (by linarith)
      nlinarith
    · intro _
      apply roundQ_nonneg 100 (by norm_num)
      exact le_max_left 0 _
  · rw [if_neg hm, if_neg hm]
    refine ⟨?_, fun hm' => absurd hm' hm⟩
    apply roundQ_mono 100 (by norm_num)
    nlinarith

/-- Witness for C8 (amended): history `[1, 2, 3, 4, 5]` (all kept by the
filter), baseline `[0, 10]`, lower-is-better: the returned range is ordered
with a nonnegative minimum. -/
theorem c8_witness :
    5 ≤ (filterOutliers [1, 2, 3, 4, 5] none true).1.length ∧
    ((0:ℚ), (10:ℚ)).1 ≤ ((0:ℚ), (10:ℚ)).2 ∧
    (∀ v ∈ ([1, 2, 3, 4, 5] : List ℚ), 0 ≤ v) ∧
    ((calcDynamicRange ratSqrt [1, 2, 3, 4, 5] (0, 10) "lower_better" none).1.1 ≤
      (calcDynamicRange ratSqrt [1, 2, 3, 4, 5] (0, 10) "lower_better" none).1.2 ∧
     ("lower_better" = "lower_better" →
      0 ≤ (calcDynamicRange ratSqrt [1, 2, 3, 4, 5] (0, 10) "lower_better" none).1.1)) :=
  ⟨by decide, by decide, by decide,
   c8_range_order ratSqrt [1, 2, 3, 4, 5] (0, 10) "lower_better" none
     (by decide) (by decide) (fun _ => ⟨by decide, by decide⟩)⟩

/-- Counterexample to C8 as stated: five valid (but negative) history values
`-10` survive filtering, the baseline `[0, 1]` is ordered, the metric is
lower-is-better — and the returned range is `[0, -5.65]`, with
`final_min > final_max`. -/
theorem c8_counterexample :
    5 ≤ (filterOutliers [-10, -10, -10, -10, -10] none true).1.length ∧
    ((0:ℚ), (1:ℚ)).1 ≤ ((0:ℚ), (1:ℚ)).2 ∧
    (calcDynamicRange ratSqrt [-10, -10, -10, -10, -10] (0, 1) "lower_better"
        none).1 = (0, -113/20) ∧
    (calcDynamicRange ratSqrt [-10, -10, -10, -10, -10] (0, 1) "lower_better"
        none).1.2 <
      (calcDynamicRange ratSqrt [-10, -10, -10, -10, -10] (0, 1) "lower_better"
        none).1.1 := by
  refine ⟨by decide, by decide, by decide, by decide⟩
